import Mathlib

/-!
Shallow embedding of the dependency-graph core of the ci-operator repository
(package `api`): step links and their `Matches` predicate, `BuildGraph`,
`BuildPartialGraph`, `addToNode` (its effect on child lists), and
`HasAnyLinks`, together with theorems about the graph-construction claims.

Go pointers/nodes are represented by indices into the step list; a graph is
the node array together with the per-node child-index lists and the root
indices, exactly the data reachable from the `[]*StepNode` the Go code
returns.
-/

namespace CiOperator

/-- Modelled from the spec: `ImageStreamTagReference` is defined outside the
given source files; the spec says external-resource links match "by
(namespace, name, tag) tuple identity", and the `Matches` code in the source
compares exactly the `Name`, `Namespace` and `Tag` fields. -/
structure ImageStreamTagReference where
  ns : String
  name : String
  tag : String
deriving DecidableEq, Repr

/-- Modelled from the spec: `PipelineImageStreamTagReference` is defined
outside the given source files; it is an internally-produced pipeline image
tag reference compared by identity (`l.image == link.image` in the source),
i.e. a string-like value with structural equality. -/
def PipelineImageStreamTagReference := String
deriving DecidableEq, Repr

/-- The closed set of link kinds defined in the source: the five
constructors `ExternalImageLink`, `InternalImageLink`, `ImagesReadyLink`,
`RPMRepoLink`, `ReleaseImagesLink`. -/
inductive StepLink where
  | externalImageLink (image : ImageStreamTagReference)
  | internalImageLink (image : PipelineImageStreamTagReference)
  | imagesReadyLink
  | rpmRepoLink
  | releaseImagesLink
deriving DecidableEq, Repr

/-- The kind of a link (which of the five constructors built it). -/
inductive LinkKind where
  | externalImage
  | internalImage
  | imagesReady
  | rpmRepo
  | releaseImages
deriving DecidableEq, Repr

def StepLink.kind : StepLink → LinkKind
  | .externalImageLink _ => .externalImage
  | .internalImageLink _ => .internalImage
  | .imagesReadyLink => .imagesReady
  | .rpmRepoLink => .rpmRepo
  | .releaseImagesLink => .releaseImages

/-- The `Matches` methods of the five link types, merged into one function
by case analysis on both links (each Go method switches on the dynamic type
of `other`; a mismatched type yields `false`). -/
def StepLink.Matches : StepLink → StepLink → Bool
  | .externalImageLink l, .externalImageLink link =>
      l.name == link.name && l.ns == link.ns && l.tag == link.tag
  | .internalImageLink l, .internalImageLink link => l == link
  | .imagesReadyLink, .imagesReadyLink => true
  | .rpmRepoLink, .rpmRepoLink => true
  | .releaseImagesLink, .releaseImagesLink => true
  | _, _ => false

/-- The part of the `Step` interface the graph-construction code reads:
`Name()`, `Requires()` and `Creates()` (the spec's stability invariant lets
us take them as fixed data). -/
structure Step where
  Name : String
  Requires : List StepLink
  Creates : List StepLink
deriving DecidableEq, Repr

def defaultStep : Step := ⟨"", [], []⟩

instance : Inhabited Step := ⟨defaultStep⟩

/-- The inner matching test of `BuildGraph`: some required link of `node`
matches some created link of `other` (the condition under which
`addToNode(other, node)` fires at least once). -/
def dependsOn (node other : Step) : Bool :=
  node.Requires.any fun nodeRequires =>
    other.Creates.any fun otherCreates => nodeRequires.Matches otherCreates

/-- The child list `addToNode` accumulates on node `i`: the outer loop of
`BuildGraph` visits consumers `j` in index order and appends `j` to
`other.Children` once (duplicates are suppressed by pointer identity) when
some required link of `j` matches some created link of `i`. Note the loops
run over all ordered pairs, including `j = i`. -/
def childrenOf (steps : List Step) (i : Nat) : List Nat :=
  (List.range steps.length).filter fun j =>
    dependsOn (steps.getD j defaultStep) (steps.getD i defaultStep)

/-- The `isRoot` flag of `BuildGraph`: node `j` is a root when no created
link of any node (itself included) matches a required link of `j`. -/
def isRootStep (steps : List Step) (j : Nat) : Bool :=
  !steps.any fun other => dependsOn (steps.getD j defaultStep) other

/-- The data reachable from the `[]*StepNode` that `BuildGraph` returns:
the node array (one node per input step, in order), each node's child
indices, and the indices of the returned roots. -/
structure StepGraph where
  steps : List Step
  children : List (List Nat)
  roots : List Nat
deriving DecidableEq, Repr

/-- `BuildGraph` from the source: build one node per step, wire children by
the quadruple loop over (node, other, nodeRequires, otherCreates), and
return the nodes for which no match fired. -/
def BuildGraph (steps : List Step) : StepGraph :=
  { steps := steps
    children := (List.range steps.length).map (childrenOf steps)
    roots := (List.range steps.length).filter (isRootStep steps) }

/-- `HasAnyLinks` from the source: some candidate (created) link is matched
by some link of the required list. -/
def HasAnyLinks (links candidates : List StepLink) : Bool :=
  candidates.any fun candidate => links.any fun l => l.Matches candidate

/-- Result of the first (name-consuming) scan of `BuildPartialGraph`:
the per-step candidate flags, the accumulated required links, and the
names left unconsumed. -/
structure SeedResult where
  candidates : List Bool
  required : List StepLink
  leftover : List String
deriving DecidableEq, Repr

/-- The name-consuming scan of `BuildPartialGraph`: each step, in order,
consumes the first remaining name equal to its `Name()` (if any), becoming a
candidate and contributing its `Requires()`; the loop body breaks after one
consumption per step. -/
def seedScan : List Step → List String → SeedResult
  | [], names => ⟨[], [], names⟩
  | step :: rest, names =>
    if names.contains step.Name then
      let r := seedScan rest (names.erase step.Name)
      ⟨true :: r.candidates, step.Requires ++ r.required, r.leftover⟩
    else
      let r := seedScan rest names
      ⟨false :: r.candidates, r.required, r.leftover⟩

/-- One pass of the fixpoint loop of `BuildPartialGraph`, over the steps
paired with their current candidate flags: every not-yet-candidate step
whose `Creates()` is matched by the current required list is marked, its
`Requires()` are appended (visible to later steps of the same pass), and the
number of steps added is counted. -/
def closurePass : List (Step × Bool) → List StepLink → List Bool × List StepLink × Nat
  | [], required => ([], required, 0)
  | (step, c) :: rest, required =>
    if c then
      let r := closurePass rest required
      (true :: r.1, r.2.1, r.2.2)
    else if HasAnyLinks required step.Creates then
      let r := closurePass rest (required ++ step.Requires)
      (true :: r.1, r.2.1, r.2.2 + 1)
    else
      let r := closurePass rest required
      (false :: r.1, r.2.1, r.2.2)

/-- The fixpoint loop of `BuildPartialGraph`, fuelled: run passes until one
adds no step (in which case the state is returned unchanged, as in the
source, where a zero-`added` pass performs no writes) or fuel runs out.
`closureFuel_fixpoint` below shows that fuel `candidates.count false + 1`
always reaches the genuine fixpoint, so the fuelled loop agrees with the
unbounded `for` loop of the source. -/
def closureFuel (steps : List Step) : Nat → List Bool × List StepLink → List Bool × List StepLink
  | 0, s => s
  | fuel + 1, (cands, required) =>
    let p := closurePass (steps.zip cands) required
    if p.2.2 = 0 then (cands, required)
    else closureFuel steps fuel (p.1, p.2.1)

/-- The fixpoint loop with always-sufficient fuel (one more pass than there
are unmarked candidates; each continuing pass marks at least one). -/
def closureLoop (steps : List Step) (cands : List Bool) (required : List StepLink) :
    List Bool × List StepLink :=
  closureFuel steps (cands.count false + 1) (cands, required)

/-- `BuildPartialGraph` from the source: empty `names` delegates to
`BuildGraph`; otherwise the name-consuming scan runs, leftover names are an
error (joined with ", "), and otherwise the requirement closure selects the
targeted steps and `BuildGraph` runs on them. -/
def BuildPartialGraph (steps : List Step) (names : List String) :
    Except String StepGraph :=
  if names.isEmpty then .ok (BuildGraph steps)
  else
    let seed := seedScan steps names
    if seed.leftover.isEmpty then
      let closed := closureLoop steps seed.candidates seed.required
      let targeted := (steps.zip closed.1).filterMap fun sc =>
        if sc.2 then some sc.1 else none
      .ok (BuildGraph targeted)
    else
      .error ("the following names were not found in the config or were duplicates: "
        ++ String.intercalate ", " seed.leftover)

/-- Bounded reachability along child edges: `reachesFuel children f i j`
holds when `j` is reachable from `i` in at most `f` child-edge hops. -/
def reachesFuel (children : List (List Nat)) : Nat → Nat → Nat → Bool
  | 0, i, j => i == j
  | fuel + 1, i, j =>
    i == j || (children.getD i []).any fun c => reachesFuel children fuel c j

/-- Node `i` is a (proper) ancestor of node `j` in the constructed graph:
some child of `i` reaches `j`. Fuel `steps.length` covers every reachable
node, since a shortest child-path never repeats a node. -/
def isAncestorIn (g : StepGraph) (i j : Nat) : Bool :=
  (g.children.getD i []).any fun c => reachesFuel g.children g.steps.length c j

/-- Node `i` appears in the returned forest: it is reachable from one of the
returned roots. -/
def inForest (g : StepGraph) (i : Nat) : Bool :=
  g.roots.any fun r => reachesFuel g.children g.steps.length r i

/-- Node `i` is an ancestor of node `j` inside the returned forest: `i` is
reachable from a returned root and is a proper ancestor of `j`. -/
def forestAncestor (g : StepGraph) (i j : Nat) : Bool :=
  inForest g i && isAncestorIn g i j

/-- The candidate flags the name-consuming scan produces for a single
requested name that some step bears: only the first step with that name is
marked. Stated by the amended ambiguous-name claim and compared against
`seedScan` below. -/
def markFirst : List Step → String → List Bool
  | [], _ => []
  | step :: rest, name =>
    if step.Name == name then true :: List.replicate rest.length false
    else false :: markFirst rest name

/-! Concrete steps and links used by the scenario claims. -/

def L1 : StepLink := .internalImageLink "L1"

def L2 : StepLink := .internalImageLink "L2"

def L3 : StepLink := .internalImageLink "L3"

def stepX : Step := ⟨"X", [], [L1]⟩

def stepY : Step := ⟨"Y", [L1], [L2]⟩

def stepZ : Step := ⟨"Z", [L1], [L3]⟩

/-- First half of a two-step dependency cycle: requires the RPM-repo link,
creates the images-ready link. -/
def cycA : Step := ⟨"a", [.rpmRepoLink], [.imagesReadyLink]⟩

/-- Second half of the cycle: requires the images-ready link, creates the
RPM-repo link. -/
def cycB : Step := ⟨"b", [.imagesReadyLink], [.rpmRepoLink]⟩

/-- A step one of whose required links is matched by one of its own created
links. -/
def selfStep : Step := ⟨"s", [.rpmRepoLink], [.rpmRepoLink]⟩

/-- Two distinct steps bearing the same name. -/
def dupA : Step := ⟨"dup", [], [.imagesReadyLink]⟩

def dupB : Step := ⟨"dup", [], [.rpmRepoLink]⟩

/-- The shape of `inputImageTagStep` from `pkg/steps/input_image_tag.go`:
`Name()` returns the empty string, `Requires()` is one external image link
for the base image, `Creates()` is one internal image link for the target
tag. -/
def unnamedStep : Step :=
  ⟨"", [.externalImageLink ⟨"openshift", "origin-v4.0", "base"⟩],
    [.internalImageLink "root"]⟩

/-! ## Theorems -/

/-- C4: for every step sequence, `BuildPartialGraph` with an empty names
list returns exactly the forest `BuildGraph` builds on that step sequence,
with no error. -/
theorem buildPartialGraph_empty_names (steps : List Step) :
    BuildPartialGraph steps [] = .ok (BuildGraph steps) := rfl

/-- C2: on the concrete scenario X (creates L1), Y (requires L1, creates
L2), Z (requires L1, creates L3), `BuildGraph` returns the single root X
whose children are exactly Y and Z, each a leaf; and
`BuildPartialGraph(steps, ["Z"])` selects exactly {X, Z} and returns root X
with Z as its single child. -/
theorem buildGraph_scenario_xyz :
    (L1.Matches L2 = false ∧ L1.Matches L3 = false ∧ L2.Matches L3 = false) ∧
    (BuildGraph [stepX, stepY, stepZ]).roots = [0] ∧
    (BuildGraph [stepX, stepY, stepZ]).steps = [stepX, stepY, stepZ] ∧
    (BuildGraph [stepX, stepY, stepZ]).children = [[1, 2], [], []] ∧
    BuildPartialGraph [stepX, stepY, stepZ] ["Z"] = .ok (BuildGraph [stepX, stepZ]) ∧
    (BuildGraph [stepX, stepZ]).steps = [stepX, stepZ] ∧
    (BuildGraph [stepX, stepZ]).roots = [0] ∧
    (BuildGraph [stepX, stepZ]).children = [[1], []] :=
  ⟨⟨rfl, rfl, rfl⟩, rfl, rfl, rfl, rfl, rfl, rfl, rfl⟩

/-- C9: `BuildGraph` does not put every input step into the returned
forest: on the two-step cycle (each step's requirement is matched only by
the link the other creates) it returns an empty root list, and neither node
is reachable from any returned root. -/
theorem buildGraph_cycle_drops_steps :
    (∃ c ∈ cycA.Creates, ∃ r ∈ cycB.Requires, c.Matches r = true) ∧
    (∃ c ∈ cycB.Creates, ∃ r ∈ cycA.Requires, c.Matches r = true) ∧
    (BuildGraph [cycA, cycB]).roots = [] ∧
    inForest (BuildGraph [cycA, cycB]) 0 = false ∧
    inForest (BuildGraph [cycA, cycB]) 1 = false := by decide

/-- C1 counterexample: in the two-step cycle, `cycA` creates a link
matching a link `cycB` requires, yet `cycA`'s node is not an ancestor of
`cycB`'s node within the returned forest — the returned root list is empty,
so neither node appears under any returned root. -/
theorem forestAncestor_cycle_fails :
    (∃ c ∈ cycA.Creates, ∃ r ∈ cycB.Requires, c.Matches r = true) ∧
    forestAncestor (BuildGraph [cycA, cycB]) 0 1 = false ∧
    (BuildGraph [cycA, cycB]).roots = [] := by decide

/-- C3 counterexample: `BuildGraph` also matches a node against itself: a
step one of whose requirements is matched by one of its own created links
becomes its own child and is not returned as a root (here the returned
root list is empty). -/
theorem buildGraph_self_loop :
    (∃ r ∈ selfStep.Requires, ∃ c ∈ selfStep.Creates, r.Matches c = true) ∧
    (BuildGraph [selfStep]).children = [[0]] ∧
    (BuildGraph [selfStep]).roots = [] := by decide

/-- C6 counterexample: a requested name borne by two distinct steps is not
reported as an error: `BuildPartialGraph` succeeds and silently selects
only the first step with that name. -/
theorem buildPartialGraph_ambiguous_name_silent :
    dupA.Name = dupB.Name ∧ dupA ≠ dupB ∧
    BuildPartialGraph [dupA, dupB] ["dup"] = .ok (BuildGraph [dupA]) :=
  ⟨rfl, by decide, rfl⟩

/-- C8: the code at the failing input of the empty-string target: a step
whose `Name()` is the empty string (the shape of `inputImageTagStep`) is
seeded as a candidate by `BuildPartialGraph(steps, [""])`, which succeeds —
although the `Step` interface documents the empty name as "cannot be
targeted". -/
theorem buildPartialGraph_empty_name_targets_unnamed :
    unnamedStep.Name = "" ∧
    (seedScan [unnamedStep] [""]).candidates = [true] ∧
    (seedScan [unnamedStep] [""]).leftover = [] ∧
    BuildPartialGraph [unnamedStep] [""] = .ok (BuildGraph [unnamedStep]) :=
  ⟨rfl, rfl, rfl, rfl⟩

/-- The `Matches` predicate is symmetric across all five link kinds. -/
theorem Matches_symm (l₁ l₂ : StepLink) : l₁.Matches l₂ = l₂.Matches l₁ := by
  cases l₁ <;> cases l₂ <;> simp only [StepLink.Matches] <;>
    first
      | rfl
      | (rw [Bool.eq_iff_iff]; simp only [Bool.and_eq_true, beq_iff_eq]; tauto)

/-- C7: over the five defined link constructors, `Matches` is always false
across kinds, reflexive (external links compare the full
(namespace, name, tag) tuple, so every link matches itself), and symmetric. -/
theorem Matches_kind_laws :
    (∀ l : StepLink, l.Matches l = true) ∧
    (∀ l₁ l₂ : StepLink, l₁.kind ≠ l₂.kind → l₁.Matches l₂ = false) ∧
    (∀ l₁ l₂ : StepLink, l₁.Matches l₂ = l₂.Matches l₁) ∧
    (∀ a b : ImageStreamTagReference,
      (StepLink.externalImageLink a).Matches (.externalImageLink b) = true ↔
        a.ns = b.ns ∧ a.name = b.name ∧ a.tag = b.tag) := by
  refine ⟨?_, ?_, Matches_symm, ?_⟩
  · intro l
    cases l <;> simp [StepLink.Matches]
  · intro l₁ l₂ h
    cases l₁ <;> cases l₂ <;> simp_all [StepLink.Matches, StepLink.kind]
  · intro a b
    simp only [StepLink.Matches, Bool.and_eq_true, beq_iff_eq]
    tauto

/-- The child list stored for node `i` in the built graph is exactly
`childrenOf steps i`. -/
theorem children_getD (steps : List Step) (i : Nat) (h : i < steps.length) :
    (BuildGraph steps).children.getD i [] = childrenOf steps i := by
  have hlen : i < ((List.range steps.length).map (childrenOf steps)).length := by
    simpa using h
  simp only [BuildGraph]
  rw [List.getD_eq_getElem _ _ hlen]
  simp

/-- Bounded reachability is reflexive at any fuel. -/
theorem reachesFuel_self (children : List (List Nat)) (fuel i : Nat) :
    reachesFuel children fuel i i = true := by
  cases fuel <;> simp [reachesFuel]

/-- C1 (amended): if step `a` creates a link matching a link step `b`
requires, `BuildGraph` makes `b`'s node a child of `a`'s node, so `a` is an
ancestor of `b` in the constructed child-edge graph (the pair need not be
reachable from the returned roots, e.g. in dependency cycles). -/
theorem buildGraph_ancestor_of_match (steps : List Step) (ia jb : Nat)
    (hia : ia < steps.length) (hjb : jb < steps.length)
    (h : ∃ c ∈ (steps.getD ia defaultStep).Creates,
         ∃ r ∈ (steps.getD jb defaultStep).Requires, c.Matches r = true) :
    isAncestorIn (BuildGraph steps) ia jb = true := by
  obtain ⟨c, hc, r, hr, hm⟩ := h
  have hdep : dependsOn (steps.getD jb defaultStep) (steps.getD ia defaultStep) = true := by
    simp only [dependsOn, List.any_eq_true]
    exact ⟨r, hr, c, hc, by rw [Matches_symm]; exact hm⟩
  have hmem : jb ∈ childrenOf steps ia := by
    simp only [childrenOf, List.mem_filter, List.mem_range]
    exact ⟨hjb, hdep⟩
  simp only [isAncestorIn, List.any_eq_true]
  refine ⟨jb, ?_, reachesFuel_self _ _ _⟩
  rw [children_getD steps ia hia]
  exact hmem

/-- C1 witness: in the X/Y/Z scenario, X (which creates L1) is an ancestor
of Y (which requires L1) in the constructed graph. -/
theorem buildGraph_ancestor_of_match_witness :
    isAncestorIn (BuildGraph [stepX, stepY, stepZ]) 0 1 = true :=
  buildGraph_ancestor_of_match [stepX, stepY, stepZ] 0 1 (by decide) (by decide)
    (by decide)

/-- C3 (amended): `BuildGraph` scans all ordered node pairs including a node
against itself, so a step one of whose requirements is matched by one of its
own created links is made a child of itself and is not returned as a root. -/
theorem buildGraph_self_match_not_root (steps : List Step) (i : Nat)
    (hi : i < steps.length)
    (h : ∃ r ∈ (steps.getD i defaultStep).Requires,
         ∃ c ∈ (steps.getD i defaultStep).Creates, r.Matches c = true) :
    i ∈ (BuildGraph steps).children.getD i [] ∧ i ∉ (BuildGraph steps).roots := by
  obtain ⟨r, hr, c, hc, hm⟩ := h
  have hdep : dependsOn (steps.getD i defaultStep) (steps.getD i defaultStep) = true := by
    simp only [dependsOn, List.any_eq_true]
    exact ⟨r, hr, c, hc, hm⟩
  constructor
  · rw [children_getD steps i hi]
    simp only [childrenOf, List.mem_filter, List.mem_range]
    exact ⟨hi, hdep⟩
  · intro hmem
    have hroot : isRootStep steps i = true := by
      have hf : i ∈ (List.range steps.length).filter (isRootStep steps) := by
        simpa [BuildGraph] using hmem
      exact (List.mem_filter.mp hf).2
    simp only [isRootStep, Bool.not_eq_true', List.any_eq_false] at hroot
    have hmem' : steps.getD i defaultStep ∈ steps := by
      rw [List.getD_eq_getElem _ _ hi]
      exact List.getElem_mem hi
    exact absurd hdep (by simpa using hroot _ hmem')

/-- C3 witness: the self-requiring step is its own child and not a root. -/
theorem buildGraph_self_match_not_root_witness :
    0 ∈ (BuildGraph [selfStep]).children.getD 0 [] ∧
      0 ∉ (BuildGraph [selfStep]).roots :=
  buildGraph_self_match_not_root [selfStep] 0 (by decide) (by decide)

/-- The name-consuming scan with no requested names marks nothing, collects
nothing and leaves nothing over. -/
theorem seedScan_nil (steps : List Step) :
    seedScan steps [] = ⟨List.replicate steps.length false, [], []⟩ := by
  induction steps with
  | nil => rfl
  | cons s rest ih => simp [seedScan, ih, List.replicate_succ]

/-- C5: `BuildPartialGraph` returns an error (and no graph) exactly when the
name-consuming scan leaves at least one requested name unconsumed, and the
error message names all leftover targets jointly, joined with ", " in
order. -/
theorem buildPartialGraph_error_iff (steps : List Step) (names : List String)
    (e : String) :
    BuildPartialGraph steps names = .error e ↔
      (seedScan steps names).leftover ≠ [] ∧
        e = "the following names were not found in the config or were duplicates: "
          ++ String.intercalate ", " (seedScan steps names).leftover := by
  by_cases hn : names = []
  · subst hn
    simp [BuildPartialGraph, seedScan_nil]
  · have hne : names.isEmpty = false := by
      simpa [List.isEmpty_iff] using hn
    by_cases hl : (seedScan steps names).leftover = []
    · have hle : (seedScan steps names).leftover.isEmpty = true := by
        simp [List.isEmpty_iff, hl]
      simp [BuildPartialGraph, hne, hle, hl]
    · have hle : (seedScan steps names).leftover.isEmpty = false := by
        simpa [List.isEmpty_iff] using hl
      simp only [BuildPartialGraph, hne, Bool.false_eq_true, if_false, hle]
      constructor
      · intro h
        exact ⟨hl, (Except.error.inj h).symm⟩
      · intro h
        rw [h.2]

/-- C6 (amended): a requested name borne by several steps is not reported:
when some step bears the single requested name, `BuildPartialGraph`
succeeds, and the name-consuming scan seeds exactly the first step (in
input order) bearing that name — later steps with the same name are not
seeded by name matching. -/
theorem buildPartialGraph_first_match_selected (steps : List Step) (name : String)
    (h : steps.any (fun s => s.Name == name) = true) :
    (seedScan steps [name]).leftover = [] ∧
    (seedScan steps [name]).candidates = markFirst steps name ∧
    ∀ e, BuildPartialGraph steps [name] ≠ .error e := by
  have hmain : (seedScan steps [name]).leftover = [] ∧
      (seedScan steps [name]).candidates = markFirst steps name := by
    induction steps with
    | nil => simp at h
    | cons s rest ih =>
      by_cases hs : (s.Name == name) = true
      · have heq : s.Name = name := by simpa using hs
        simp [seedScan, heq, seedScan_nil, markFirst]
      · have hne : s.Name ≠ name := by simpa using hs
        have hrest : rest.any (fun s => s.Name == name) = true := by
          simpa [hs] using h
        have ihr := ih hrest
        simp [seedScan, hne, markFirst, ihr.1, ihr.2]
  refine ⟨hmain.1, hmain.2, ?_⟩
  intro e heq
  have hle : (seedScan steps [name]).leftover.isEmpty = true := by
    simp [hmain.1]
  simp [BuildPartialGraph, hle] at heq

/-- C6 amended-claim witness: with two steps both named "dup",
`BuildPartialGraph` seeds only the first and does not error. -/
theorem buildPartialGraph_first_match_selected_witness :
    (seedScan [dupA, dupB] ["dup"]).leftover = [] ∧
    (seedScan [dupA, dupB] ["dup"]).candidates = markFirst [dupA, dupB] "dup" ∧
    ∀ e, BuildPartialGraph [dupA, dupB] ["dup"] ≠ .error e :=
  buildPartialGraph_first_match_selected [dupA, dupB] "dup" (by decide)

/-- One closure pass accounts for every unmarked flag: the unmarked flags
that survive plus the number of steps added equal the unmarked flags that
went in. -/
theorem closurePass_count (l : List (Step × Bool)) (req : List StepLink) :
    (closurePass l req).1.count false + (closurePass l req).2.2 =
      (l.map Prod.snd).count false := by
  induction l generalizing req with
  | nil => rfl
  | cons sb rest ih =>
    obtain ⟨s, c⟩ := sb
    cases c with
    | true =>
      have ihr := ih req
      simp [closurePass, List.count_cons]
      omega
    | false =>
      by_cases hh : HasAnyLinks req s.Creates = true
      · have ihr := ih (req ++ s.Requires)
        simp [closurePass, hh, List.count_cons]
        omega
      · have ihr := ih req
        simp [closurePass, hh, List.count_cons]
        omega

/-- The second components of a zip are a prefix of the second list. -/
theorem map_snd_zip_eq_take (steps : List Step) (cands : List Bool) :
    (steps.zip cands).map Prod.snd = cands.take steps.length := by
  induction steps generalizing cands with
  | nil => simp
  | cons s rest ih => cases cands <;> simp [ih]

/-- Unmarked flags in a prefix never exceed those of the whole list. -/
theorem count_false_take_le (cands : List Bool) (n : Nat) :
    (cands.take n).count false ≤ cands.count false :=
  (List.take_sublist n cands).count_le false

/-- With fuel at least one more than the number of unmarked candidates, the
fuelled closure loop reaches a genuine fixpoint: running one further pass on
its result adds no step. This is the termination argument of the source's
unbounded `for` loop — every pass either adds a step or exits. -/
theorem closureFuel_fixpoint (steps : List Step) (fuel : Nat) :
    ∀ cands req, cands.count false + 1 ≤ fuel →
      (closurePass (steps.zip (closureFuel steps fuel (cands, req)).1)
        (closureFuel steps fuel (cands, req)).2).2.2 = 0 := by
  induction fuel with
  | zero =>
    intro cands req h
    omega
  | succ f ih =>
    intro cands req h
    by_cases hp : (closurePass (steps.zip cands) req).2.2 = 0
    · simp [closureFuel, hp]
    · simp only [closureFuel, hp, if_false]
      apply ih
      have h1 := closurePass_count (steps.zip cands) req
      rw [map_snd_zip_eq_take] at h1
      have h2 := count_false_take_le cands steps.length
      omega

/-- Unfolding of the name-consuming scan when the head step's name is among
the remaining requested names. -/
theorem seedScan_cons_mem (s : Step) (rest : List Step) (names : List String)
    (h : s.Name ∈ names) :
    seedScan (s :: rest) names =
      ⟨true :: (seedScan rest (names.erase s.Name)).candidates,
        s.Requires ++ (seedScan rest (names.erase s.Name)).required,
        (seedScan rest (names.erase s.Name)).leftover⟩ := by
  simp [seedScan, h]

/-- Unfolding of the name-consuming scan when the head step's name is not
among the remaining requested names. -/
theorem seedScan_cons_not_mem (s : Step) (rest : List Step) (names : List String)
    (h : s.Name ∉ names) :
    seedScan (s :: rest) names =
      ⟨false :: (seedScan rest names).candidates,
        (seedScan rest names).required,
        (seedScan rest names).leftover⟩ := by
  simp [seedScan, h]

/-- The name-consuming scan yields one candidate flag per step. -/
theorem seedScan_candidates_length (steps : List Step) (names : List String) :
    (seedScan steps names).candidates.length = steps.length := by
  induction steps generalizing names with
  | nil => rfl
  | cons s rest ih =>
    by_cases hm : s.Name ∈ names
    · rw [seedScan_cons_mem s rest names hm]
      simp [ih]
    · rw [seedScan_cons_not_mem s rest names hm]
      simp [ih]

/-- Every requested name is either consumed (marking one candidate) or left
over: marked candidates plus leftover names equal the requested names. -/
theorem seedScan_count_true (steps : List Step) (names : List String) :
    (seedScan steps names).candidates.count true
      + (seedScan steps names).leftover.length = names.length := by
  induction steps generalizing names with
  | nil => simp [seedScan]
  | cons s rest ih =>
    by_cases hm : s.Name ∈ names
    · have hlen := List.length_erase_of_mem hm
      have hpos : 1 ≤ names.length := List.length_pos.mpr (List.ne_nil_of_mem hm)
      have ihr := ih (names.erase s.Name)
      rw [seedScan_cons_mem s rest names hm]
      simp only [List.count_cons]
      simp
      omega
    · have ihr := ih names
      rw [seedScan_cons_not_mem s rest names hm]
      simp only [List.count_cons]
      simp
      omega

/-- A Bool list is exhausted by its marked and unmarked entries. -/
theorem count_true_add_count_false (l : List Bool) :
    l.count true + l.count false = l.length := by
  induction l with
  | nil => rfl
  | cons b rest ih => cases b <;> simp [List.count_cons] <;> omega

/-- C10: whenever the fixpoint loop of `BuildPartialGraph` is reached (a
nonempty names list, all names consumed), it stabilizes within as many
passes as there are steps: after running the fuelled loop with fuel
`steps.length`, one further pass adds no step. Each pass either marks a
previously-unmarked step or exits, and at least one step was already marked
by the name scan. -/
theorem closure_loop_pass_bound (steps : List Step) (names : List String)
    (h1 : names ≠ []) (h2 : (seedScan steps names).leftover = []) :
    (closurePass
        (steps.zip (closureFuel steps steps.length
          ((seedScan steps names).candidates, (seedScan steps names).required)).1)
        (closureFuel steps steps.length
          ((seedScan steps names).candidates, (seedScan steps names).required)).2).2.2
      = 0 := by
  apply closureFuel_fixpoint
  have hc := seedScan_count_true steps names
  have hl := seedScan_candidates_length steps names
  have hb := count_true_add_count_false (seedScan steps names).candidates
  have hn : 1 ≤ names.length := List.length_pos.mpr h1
  rw [h2] at hc
  simp only [List.length_nil, Nat.add_zero] at hc
  omega

/-- C10 witness: on the X/Y/Z scenario targeted at "Z", the closure loop is
stable after at most three passes. -/
theorem closure_loop_pass_bound_witness :
    (closurePass
        ([stepX, stepY, stepZ].zip (closureFuel [stepX, stepY, stepZ]
          [stepX, stepY, stepZ].length
          ((seedScan [stepX, stepY, stepZ] ["Z"]).candidates,
            (seedScan [stepX, stepY, stepZ] ["Z"]).required)).1)
        (closureFuel [stepX, stepY, stepZ] [stepX, stepY, stepZ].length
          ((seedScan [stepX, stepY, stepZ] ["Z"]).candidates,
            (seedScan [stepX, stepY, stepZ] ["Z"]).required)).2).2.2 = 0 :=
  closure_loop_pass_bound [stepX, stepY, stepZ] ["Z"] (by decide) (by decide)

end CiOperator
